import Mathlib

/-!
Verification of the FPL Slack bot (`fpl_slack_bot.py`) against its
specification.  The script fetches fantasy-football league standings,
derives three ranked views, and posts them to a Slack webhook.  We give a
shallow embedding of its pure data flow: JSON records become structures
(optional JSON fields become `Option`), the paginated standings API becomes
a list of pages, per-entry history becomes a function from entry id to a
record list, and exceptional exits become `Option`/`Except` results.
-/

namespace FplBot

/-- One entry of a standings page, as consumed by the script: it reads the
fields `entry`, `entry_name`, `player_name`, `total` and `event_total`
with plain indexing, so we model them as always present. -/
structure TeamRow where
  entry : Int
  entry_name : String
  player_name : String
  total : Int
  event_total : Int
deriving DecidableEq, Repr

/-- The display label built by the script's f-string
`f"{t['entry_name']} ({t['player_name']})"`. -/
def labelOf (t : TeamRow) : String :=
  t.entry_name ++ " (" ++ t.player_name ++ ")"

/-- The rows `( label, int(t["total"]) )` that `build_overall_table` sorts. -/
def overall_rows (teams : List TeamRow) : List (String × Int) :=
  teams.map (fun t => (labelOf t, t.total))

/-- Stable insertion into a descending-sorted list: the inserted element
goes in front of every element whose score is not larger.  Inserting the
elements from last to first (see `sortDesc`) therefore keeps earlier input
elements in front of later equal-score ones, which is exactly the
stability guarantee of Python's `sorted(..., key=..., reverse=True)`. -/
def insertDesc (x : String × Int) : List (String × Int) → List (String × Int)
  | [] => [x]
  | y :: ys => if y.2 ≤ x.2 then x :: y :: ys else y :: insertDesc x ys

/-- Stable descending sort by score, embedding Python's
`sorted(rows, key=lambda x: x[1], reverse=True)` (a stable sort whose
output is uniquely determined by sortedness plus stability). -/
def sortDesc : List (String × Int) → List (String × Int)
  | [] => []
  | x :: xs => insertDesc x (sortDesc xs)

/-- `build_overall_table`, with the fetched team list abstracted as input
(fetching itself is `collect_all_teams` below). -/
def build_overall_table (teams : List TeamRow) : List (String × Int) :=
  sortDesc (overall_rows teams)

lemma insertDesc_perm (x : String × Int) (l : List (String × Int)) :
    List.Perm (insertDesc x l) (x :: l) := by
  induction l with
  | nil => simp [insertDesc]
  | cons y ys ih =>
    by_cases h : y.2 ≤ x.2
    · simp [insertDesc, h]
    · simp only [insertDesc, if_neg h]
      exact (ih.cons y).trans (List.Perm.swap x y ys)

lemma sortDesc_perm (l : List (String × Int)) : List.Perm (sortDesc l) l := by
  induction l with
  | nil => simp [sortDesc]
  | cons x xs ih =>
    exact (insertDesc_perm x (sortDesc xs)).trans (ih.cons x)

lemma insertDesc_pairwise (x : String × Int) (l : List (String × Int))
    (h : List.Pairwise (fun a b : String × Int => b.2 ≤ a.2) l) :
    List.Pairwise (fun a b : String × Int => b.2 ≤ a.2) (insertDesc x l) := by
  induction l with
  | nil => simp [insertDesc]
  | cons y ys ih =>
    rcases List.pairwise_cons.mp h with ⟨hy, hys⟩
    by_cases hc : y.2 ≤ x.2
    · simp only [insertDesc, if_pos hc]
      refine List.pairwise_cons.mpr ⟨?_, h⟩
      intro b hb
      rcases List.mem_cons.mp hb with rfl | hb2
      · exact hc
      · exact le_trans (hy b hb2) hc
    · simp only [insertDesc, if_neg hc]
      refine List.pairwise_cons.mpr ⟨?_, ih hys⟩
      intro b hb
      have hmem : b ∈ x :: ys := (insertDesc_perm x ys).mem_iff.mp hb
      rcases List.mem_cons.mp hmem with rfl | hb2
      · exact le_of_lt (not_le.mp hc)
      · exact hy b hb2

lemma sortDesc_pairwise (l : List (String × Int)) :
    List.Pairwise (fun a b : String × Int => b.2 ≤ a.2) (sortDesc l) := by
  induction l with
  | nil => simp [sortDesc]
  | cons x xs ih => exact insertDesc_pairwise x (sortDesc xs) ih

lemma insertDesc_filter (x : String × Int) (l : List (String × Int)) (s : Int) :
    (insertDesc x l).filter (fun r => r.2 == s) =
      (x :: l).filter (fun r => r.2 == s) := by
  induction l with
  | nil => simp [insertDesc]
  | cons y ys ih =>
    by_cases hc : y.2 ≤ x.2
    · simp [insertDesc, hc]
    · have hxy : x.2 < y.2 := not_le.mp hc
      by_cases hx : x.2 = s
      · have hy : ¬ y.2 = s := by omega
        simp only [insertDesc, if_neg hc, List.filter_cons] at *
        simp only [beq_iff_eq, hx, hy] at *
        simp only [if_pos rfl, if_neg hy] at *
        simpa [hx] using ih
      · simp only [insertDesc, if_neg hc, List.filter_cons] at *
        simp only [beq_iff_eq, hx] at *
        by_cases hy : y.2 = s
        · simp only [if_pos hy, if_neg hx] at *
          simpa [hx] using congrArg (fun t => y :: t) ih
        · simp only [if_neg hy, if_neg hx] at *
          simpa [hx] using ih

lemma sortDesc_filter (l : List (String × Int)) (s : Int) :
    (sortDesc l).filter (fun r => r.2 == s) = l.filter (fun r => r.2 == s) := by
  induction l with
  | nil => simp [sortDesc]
  | cons x xs ih =>
    calc (insertDesc x (sortDesc xs)).filter (fun r => r.2 == s)
        = (x :: sortDesc xs).filter (fun r => r.2 == s) :=
          insertDesc_filter x (sortDesc xs) s
      _ = (x :: xs).filter (fun r => r.2 == s) := by
          simp only [List.filter_cons, ih]

/-- C1: `build_overall_table` maps each fetched team to the pair
(label `"name (owner)"`, score `total`), its output is sorted
non-increasing by score, it is a permutation of the mapped input (every
input team with a score appears exactly once), and the sort is stable:
for every score the sub-list of rows with that score equals the input
sub-list with that score, so original fetch order is preserved among
ties. -/
theorem C1_overall_ranking (teams : List TeamRow) :
    build_overall_table teams =
      sortDesc (teams.map
        (fun t => (t.entry_name ++ " (" ++ t.player_name ++ ")", t.total)))
    ∧ List.Pairwise (fun a b : String × Int => b.2 ≤ a.2)
        (build_overall_table teams)
    ∧ List.Perm (build_overall_table teams) (overall_rows teams)
    ∧ ∀ s : Int,
        (build_overall_table teams).filter (fun r => r.2 == s) =
          (overall_rows teams).filter (fun r => r.2 == s) := by
  refine ⟨rfl, sortDesc_pairwise _, sortDesc_perm _, fun s => sortDesc_filter _ s⟩

/-! ## Pagination (`collect_all_teams`) -/

/-- One standings page as the script reads it:
`data.get("standings", {}).get("results", [])` and
`data.get("standings", {}).get("has_next")`. -/
structure Page where
  results : List TeamRow
  has_next : Bool
deriving DecidableEq, Repr

/-- A page request beyond the upstream data: no results, no continuation
(the script then breaks on the empty `results`). -/
def emptyPage : Page := { results := [], has_next := false }

/-- The page served for 0-based page index `j` when the upstream API holds
the page list `ps`. -/
def getPage (ps : List Page) (j : Nat) : Page := ps.getD j emptyPage

/-- Concatenation of the entries of a page list, in page order. -/
def pageResults : List Page → List TeamRow
  | [] => []
  | p :: ps => p.results ++ pageResults ps

/-- Total number of entries on the first `j` pages. -/
def sumFirst (ps : List Page) (j : Nat) : Nat :=
  (pageResults (ps.take j)).length

/-- The `while len(teams) < limit` loop of `collect_all_teams`, one page of
the remaining upstream list per iteration.  Returns the accumulated teams
(before the final `[:limit]` truncation) together with the number of page
requests issued: each loop iteration issues exactly one request, including
the final one that returns an empty or non-continuing page. -/
def collect_run (limit : Nat) (acc : List TeamRow) :
    List Page → List TeamRow × Nat
  | [] => if acc.length < limit then (acc, 1) else (acc, 0)
  | p :: rest =>
    if acc.length < limit then
      if p.results = [] then (acc, 1)
      else if p.has_next then
        let r := collect_run limit (acc ++ p.results) rest
        (r.1, r.2 + 1)
      else (acc ++ p.results, 1)
    else (acc, 0)

/-- `collect_all_teams(league_id, phase, limit)` with the upstream standings
pages abstracted as the list `pages`: the loop result truncated to `limit`
(`return teams[:limit]`). -/
def collect_all_teams (pages : List Page) (limit : Nat) : List TeamRow :=
  (collect_run limit [] pages).1.take limit

/-- Number of standings-page requests `collect_all_teams` issues. -/
def collect_fetches (pages : List Page) (limit : Nat) : Nat :=
  (collect_run limit [] pages).2

lemma pageResults_take_succ (p : Page) (rest : List Page) (j : Nat) :
    pageResults ((p :: rest).take (j + 1)) =
      p.results ++ pageResults (rest.take j) := rfl

lemma sumFirst_cons_succ (p : Page) (rest : List Page) (j : Nat) :
    sumFirst (p :: rest) (j + 1) = p.results.length + sumFirst rest j := by
  simp [sumFirst, pageResults_take_succ, pageResults]

lemma getPage_cons_succ (p : Page) (rest : List Page) (j : Nat) :
    getPage (p :: rest) (j + 1) = getPage rest j := rfl

/-- Master invariant of the fetch loop, by induction on the remaining
upstream pages with the accumulator generalised:
1. the output extends `acc` by the entries of some initial segment of `k`
   pages, and the request count is `k` or `k + 1`;
2. before every issued request the accumulated entry count was below
   `limit`;
3. every request except the last returned a non-empty page with the
   continuation flag set;
4. the loop stopped because the accumulated count reached `limit`, or the
   last fetched page was empty, or its continuation flag was false. -/
lemma collect_run_spec (limit : Nat) :
    ∀ (ps : List Page) (acc : List TeamRow),
    (∃ k, k ≤ ps.length ∧
        (collect_run limit acc ps).1 = acc ++ pageResults (ps.take k) ∧
        ((collect_run limit acc ps).2 = k ∨ (collect_run limit acc ps).2 = k + 1))
    ∧ (∀ j, j < (collect_run limit acc ps).2 →
        acc.length + sumFirst ps j < limit)
    ∧ (∀ j, j + 1 < (collect_run limit acc ps).2 →
        (getPage ps j).results ≠ [] ∧ (getPage ps j).has_next = true)
    ∧ (limit ≤ (collect_run limit acc ps).1.length
        ∨ (1 ≤ (collect_run limit acc ps).2 ∧
            ((getPage ps ((collect_run limit acc ps).2 - 1)).results = []
              ∨ (getPage ps ((collect_run limit acc ps).2 - 1)).has_next = false))) := by
  intro ps
  induction ps with
  | nil =>
    intro acc
    by_cases h : acc.length < limit
    · have heq : collect_run limit acc [] = (acc, 1) := by
        simp [collect_run, h]
      rw [heq]
      refine ⟨⟨0, by simp [pageResults]⟩, ?_, ?_, ?_⟩
      · intro j hj
        obtain rfl : j = 0 := by omega
        simpa [sumFirst, pageResults] using h
      · intro j hj
        omega
      · exact Or.inr ⟨le_refl 1, by simp [getPage, emptyPage]⟩
    · have heq : collect_run limit acc [] = (acc, 0) := by
        simp [collect_run, h]
      rw [heq]
      refine ⟨⟨0, by simp [pageResults]⟩, ?_, ?_, ?_⟩
      · intro j hj; omega
      · intro j hj; omega
      · exact Or.inl (not_lt.mp h)
  | cons p rest ih =>
    intro acc
    by_cases h : acc.length < limit
    · by_cases hres : p.results = []
      · have heq : collect_run limit acc (p :: rest) = (acc, 1) := by
          simp [collect_run, h, hres]
        rw [heq]
        refine ⟨⟨0, by simp [pageResults]⟩, ?_, ?_, ?_⟩
        · intro j hj
          obtain rfl : j = 0 := by omega
          simpa [sumFirst, pageResults] using h
        · intro j hj; omega
        · exact Or.inr ⟨le_refl 1, Or.inl (by simpa [getPage, List.getD] using hres)⟩
      · by_cases hnext : p.has_next = true
        · have heq : collect_run limit acc (p :: rest) =
              ((collect_run limit (acc ++ p.results) rest).1,
               (collect_run limit (acc ++ p.results) rest).2 + 1) := by
            simp [collect_run, h, hres, hnext]
          obtain ⟨⟨k, hk, hk1, hk2⟩, h2, h3, h4⟩ := ih (acc ++ p.results)
          rw [heq]
          refine ⟨⟨k + 1, ?_, ?_, ?_⟩, ?_, ?_, ?_⟩
          · simpa using hk
          · simpa [pageResults_take_succ, pageResults, List.append_assoc] using hk1
          · omega
          · intro j hj
            match j with
            | 0 => simpa [sumFirst, pageResults] using h
            | j' + 1 =>
              have hj' : j' < (collect_run limit (acc ++ p.results) rest).2 := by
                simp only at hj; omega
              have := h2 j' hj'
              rw [sumFirst_cons_succ]
              simp only [List.length_append] at this
              omega
          · intro j hj
            match j with
            | 0 => exact ⟨hres, hnext⟩
            | j' + 1 =>
              rw [getPage_cons_succ]
              refine h3 j' ?_
              simp only at hj; omega
          · rcases h4 with h4 | ⟨hge, hcond⟩
            · exact Or.inl h4
            · refine Or.inr ⟨by omega, ?_⟩
              have hidx : (collect_run limit (acc ++ p.results) rest).2 + 1 - 1 =
                  ((collect_run limit (acc ++ p.results) rest).2 - 1) + 1 := by omega
              simp only [hidx, getPage_cons_succ]
              exact hcond
        · have hnext' : p.has_next = false := by
            revert hnext; cases p.has_next <;> simp
          have heq : collect_run limit acc (p :: rest) = (acc ++ p.results, 1) := by
            simp [collect_run, h, hres, hnext']
          rw [heq]
          refine ⟨⟨1, by simp, by simp [pageResults], Or.inl rfl⟩, ?_, ?_, ?_⟩
          · intro j hj
            obtain rfl : j = 0 := by omega
            simpa [sumFirst, pageResults] using h
          · intro j hj; omega
          · exact Or.inr ⟨le_refl 1, Or.inr (by simpa [getPage, List.getD] using hnext')⟩
    · have heq : collect_run limit acc (p :: rest) = (acc, 0) := by
        simp [collect_run, h]
      rw [heq]
      refine ⟨⟨0, by simp [pageResults]⟩, ?_, ?_, ?_⟩
      · intro j hj; omega
      · intro j hj; omega
      · exact Or.inl (not_lt.mp h)

lemma pageResults_append (l₁ l₂ : List Page) :
    pageResults (l₁ ++ l₂) = pageResults l₁ ++ pageResults l₂ := by
  induction l₁ with
  | nil => simp [pageResults]
  | cons p ps ih => simp [pageResults, ih]

/-- C2: `collect_all_teams` returns at most `limit` entries; the entries it
returns are an initial segment of the concatenation of the upstream pages
starting at page 1 (a partially used final page is truncated, not kept
whole); a further page is requested only while the accumulated count is
below `limit`; every request except the last hit a non-empty page whose
continuation flag was true; and the loop stopped because the count reached
`limit`, or the last page was empty, or its continuation flag was false. -/
theorem C2_collect_all_teams_spec (pages : List Page) (limit : Nat) :
    (collect_all_teams pages limit).length ≤ limit
    ∧ (∃ rest, collect_all_teams pages limit ++ rest = pageResults pages)
    ∧ (∀ j, j < collect_fetches pages limit → sumFirst pages j < limit)
    ∧ (∀ j, j + 1 < collect_fetches pages limit →
        (getPage pages j).results ≠ [] ∧ (getPage pages j).has_next = true)
    ∧ (limit ≤ (collect_run limit [] pages).1.length
        ∨ (1 ≤ collect_fetches pages limit ∧
            ((getPage pages (collect_fetches pages limit - 1)).results = []
              ∨ (getPage pages (collect_fetches pages limit - 1)).has_next = false))) := by
  obtain ⟨⟨k, hk, hk1, _⟩, h2, h3, h4⟩ := collect_run_spec limit pages []
  refine ⟨?_, ?_, ?_, h3, h4⟩
  · simp [collect_all_teams]
  · refine ⟨(pageResults (pages.take k)).drop limit ++ pageResults (pages.drop k), ?_⟩
    have : collect_all_teams pages limit =
        (pageResults (pages.take k)).take limit := by
      simp [collect_all_teams, hk1]
    rw [this, ← List.append_assoc, List.take_append_drop,
      ← pageResults_append, List.take_append_drop]
  · intro j hj
    simpa using h2 j hj

/-- A team record used only to build concrete pages for the pagination
scenario; the ranking fields are irrelevant there. -/
def mkTeam (i : Int) : TeamRow :=
  { entry := i, entry_name := "T", player_name := "P",
    total := 0, event_total := 0 }

/-- The scenario of the spec: a league of 23 teams served as three
standings pages of 10, 10 and 5 entries, the first two with the
continuation flag set. -/
def pages23 : List Page :=
  [ { results := (List.range 10).map (fun i => mkTeam i), has_next := true },
    { results := (List.range 10).map (fun i => mkTeam (10 + i)), has_next := true },
    { results := (List.range 5).map (fun i => mkTeam (20 + i)), has_next := false } ]

/-- C2 witness: with the three 10/10/5 pages and limit 15, the loop issues
two requests, so the theorem's guards instantiate concretely: before the
second request the accumulated count (10) was below the limit, and the
first page was non-empty with its continuation flag set. -/
theorem C2_collect_all_teams_spec_witness :
    sumFirst pages23 1 < 15
    ∧ (getPage pages23 0).results ≠ []
    ∧ (getPage pages23 0).has_next = true := by
  have h := C2_collect_all_teams_spec pages23 15
  exact ⟨h.2.2.1 1 (by decide), (h.2.2.2.1 0 (by decide)).1,
    (h.2.2.2.1 0 (by decide)).2⟩

/-- C3 counterexample: in the 23-team, pages 10/10/5, `TEAM_LIMIT = 10`
scenario the loop issues exactly ONE page request, not two: after page 1
the accumulated count already equals the limit, so the
`while len(teams) < limit` guard stops the loop before any second request.
The claim's "exactly the first two pages are fetched" is false. -/
theorem C3_counterexample : collect_fetches pages23 10 = 1 := by
  decide

/-- C3 amended: in that scenario exactly 10 teams are returned and exactly
the first page is fetched (no second or third page request is made). -/
theorem C3_amended_one_page :
    (collect_all_teams pages23 10).length = 10
    ∧ collect_all_teams pages23 10 = (List.range 10).map (fun i => mkTeam i)
    ∧ collect_fetches pages23 10 < 2 := by
  refine ⟨by decide, by decide, by decide⟩

/-! ## Bottom of the week (`compute_bottom_of_week`) -/

/-- One element of a history's `current` list.  The script indexes
`g["event"]` directly (always present) but reads the points with
`this_gw.get("points", 0)`, so the points field may be absent and is
modelled as an `Option`. -/
structure HistRecord where
  event : Int
  points : Option Int
deriving DecidableEq, Repr

/-- The record the script selects for team `t` and gameweek `gw`:
`next((g for g in hist.get("current", []) if int(g["event"]) == gw), None)`.
`hist` maps an entry id to that entry's `current` history list. -/
def gwRecord (hist : Int → List HistRecord) (gw : Int) (t : TeamRow) :
    Option HistRecord :=
  (hist t.entry).find? (fun g => g.event == gw)

/-- The body of the `for t in teams` loop of `compute_bottom_of_week`:
skip a team without a record for `gw`, otherwise read
`int(this_gw.get("points", 0))` and keep it when strictly below the
running minimum. -/
def bow_step (hist : Int → List HistRecord) (gw : Int)
    (st : Option String × Int) (t : TeamRow) : Option String × Int :=
  match gwRecord hist gw t with
  | none => st
  | some g =>
    let pts := g.points.getD 0
    if pts < st.2 then (some (labelOf t), pts) else st

/-- The final check of `compute_bottom_of_week`: with `worst_name` still
`None` raise (`none`), otherwise return `(worst_name, worst_points)`. -/
def bow_finish (r : Option String × Int) : Option (String × Int) :=
  match r.1 with
  | none => none
  | some n => some (n, r.2)

/-- The per-team scan of `compute_bottom_of_week`, starting from
`worst_name = None`, `worst_points = 10**9`; `none` models the final
`raise RuntimeError("Could not compute bottom of the week")`. -/
def bottom_of_week_scan (teams : List TeamRow) (hist : Int → List HistRecord)
    (gw : Int) : Option (String × Int) :=
  bow_finish (teams.foldl (bow_step hist gw) (none, 10 ^ 9))

lemma bow_finish_some (r : Option String × Int) (n : String)
    (h : r.1 = some n) : bow_finish r = some (n, r.2) := by
  cases r with
  | mk a b => cases a <;> simp_all [bow_finish]

lemma bow_finish_none (r : Option String × Int) (h : r.1 = none) :
    bow_finish r = none := by
  cases r with
  | mk a b => cases a <;> simp_all [bow_finish]

/-- `compute_bottom_of_week(league_id, gw, limit)`: collect the teams from
the standings pages, then scan their histories. -/
def compute_bottom_of_week (pages : List Page) (limit : Nat)
    (hist : Int → List HistRecord) (gw : Int) : Option (String × Int) :=
  bottom_of_week_scan (collect_all_teams pages limit) hist gw

/-- The (label, points) pairs of the teams that do have a record for the
target gameweek, in team order. -/
def bow_scores (teams : List TeamRow) (hist : Int → List HistRecord)
    (gw : Int) : List (String × Int) :=
  teams.filterMap
    (fun t => (gwRecord hist gw t).map (fun g => (labelOf t, g.points.getD 0)))

/-- Folding `bow_step` over the teams is folding the pure min-tracking step
over the score list of the teams that have a record. -/
lemma foldl_bow_step_eq (hist : Int → List HistRecord) (gw : Int) :
    ∀ (teams : List TeamRow) (st : Option String × Int),
    teams.foldl (bow_step hist gw) st =
      (bow_scores teams hist gw).foldl
        (fun st q => if q.2 < st.2 then (some q.1, q.2) else st) st := by
  intro teams
  induction teams with
  | nil => intro st; simp [bow_scores]
  | cons t ts ih =>
    intro st
    cases hrec : gwRecord hist gw t with
    | none =>
      simp only [List.foldl_cons, bow_step, hrec, bow_scores, List.filterMap_cons,
        Option.map_none']
      exact ih st
    | some g =>
      simp only [List.foldl_cons, bow_step, hrec, bow_scores, List.filterMap_cons,
        Option.map_some', List.foldl_cons]
      exact ih _

/-- Invariant of the min-tracking fold: the final minimum is no larger than
the initial one and than every score in the list, and the final state is
either the initial state unchanged or carries the name of a listed score
that strictly improved on the initial minimum. -/
lemma fold_min_spec :
    ∀ (l : List (String × Int)) (st : Option String × Int),
    (l.foldl (fun st q => if q.2 < st.2 then (some q.1, q.2) else st) st).2 ≤ st.2
    ∧ (∀ q ∈ l,
        (l.foldl (fun st q => if q.2 < st.2 then (some q.1, q.2) else st) st).2 ≤ q.2)
    ∧ ((l.foldl (fun st q => if q.2 < st.2 then (some q.1, q.2) else st) st) = st
        ∨ ∃ n, (l.foldl (fun st q => if q.2 < st.2 then (some q.1, q.2) else st) st).1
              = some n
            ∧ (n, (l.foldl (fun st q => if q.2 < st.2 then (some q.1, q.2) else st) st).2) ∈ l
            ∧ (l.foldl (fun st q => if q.2 < st.2 then (some q.1, q.2) else st) st).2 < st.2) := by
  intro l
  induction l with
  | nil => intro st; exact ⟨le_refl _, by simp, Or.inl rfl⟩
  | cons q l ih =>
    intro st
    by_cases hq : q.2 < st.2
    · obtain ⟨ih1, ih2, ih3⟩ := ih (some q.1, q.2)
      simp only [List.foldl_cons, if_pos hq]
      refine ⟨le_trans ih1 (le_of_lt hq), ?_, ?_⟩
      · intro r hr
        rcases List.mem_cons.mp hr with rfl | hr2
        · exact ih1
        · exact ih2 r hr2
      · rcases ih3 with heq | ⟨n, hn1, hn2, hn3⟩
        · exact Or.inr ⟨q.1, by rw [heq], by rw [heq]; exact List.mem_cons_self q l, by rw [heq]; exact hq⟩
        · exact Or.inr ⟨n, hn1, List.mem_cons_of_mem q hn2, lt_trans hn3 hq⟩
    · obtain ⟨ih1, ih2, ih3⟩ := ih st
      simp only [List.foldl_cons, if_neg hq]
      refine ⟨ih1, ?_, ?_⟩
      · intro r hr
        rcases List.mem_cons.mp hr with rfl | hr2
        · exact le_trans ih1 (not_lt.mp hq)
        · exact ih2 r hr2
      · rcases ih3 with heq | ⟨n, hn1, hn2, hn3⟩
        · exact Or.inl heq
        · exact Or.inr ⟨n, hn1, List.mem_cons_of_mem q hn2, hn3⟩

/-- C4 counterexample: the claim promises the minimum among teams that have
a record for the gameweek, but with a single team whose record carries
exactly `10 ^ 9` points the update guard `pts < worst_points` never fires,
`worst_name` stays `None`, and the function raises instead of returning
that team at `10 ^ 9`. -/
theorem C4_counterexample :
    bottom_of_week_scan
      [{ entry := 1, entry_name := "A", player_name := "a",
         total := 0, event_total := 0 }]
      (fun j => if j = 1 then [{ event := 5, points := some (10 ^ 9) }] else [])
      5 = none
    ∧ (gwRecord
        (fun j => if j = 1 then [{ event := 5, points := some (10 ^ 9) }] else [])
        5
        { entry := 1, entry_name := "A", player_name := "a",
          total := 0, event_total := 0 }).isSome = true := by
  exact ⟨by decide, by decide⟩

/-- C4 amended: provided some team has a record for the target gameweek
whose points are strictly below the `10 ^ 9` sentinel, the scan returns the
label and points of a team that has a record for the gameweek, and that
points value is the minimum over all teams that have one; teams without a
record are skipped; with no record at all (or none below the sentinel) the
scan fails (`none`, modelling the `RuntimeError`). -/
theorem C4_bottom_of_week_min (teams : List TeamRow)
    (hist : Int → List HistRecord) (gw : Int)
    (h : ∃ q ∈ bow_scores teams hist gw, q.2 < 10 ^ 9) :
    ∃ n p, bottom_of_week_scan teams hist gw = some (n, p)
      ∧ (n, p) ∈ bow_scores teams hist gw
      ∧ (∃ t ∈ teams, ∃ g, gwRecord hist gw t = some g
            ∧ n = labelOf t ∧ p = g.points.getD 0)
      ∧ ∀ q ∈ bow_scores teams hist gw, p ≤ q.2 := by
  obtain ⟨q, hq, hqlt⟩ := h
  have hfold := foldl_bow_step_eq hist gw teams (none, 10 ^ 9)
  obtain ⟨h1, h2, h3⟩ := fold_min_spec (bow_scores teams hist gw) (none, 10 ^ 9)
  rcases h3 with heq | ⟨n, hn1, hn2, _⟩
  · exfalso
    have := h2 q hq
    rw [heq] at this
    simp only at this
    omega
  · refine ⟨n, _, ?_, hn2, ?_, h2⟩
    · unfold bottom_of_week_scan
      rw [hfold]
      exact bow_finish_some _ n hn1
    · have := List.mem_filterMap.mp hn2
      obtain ⟨t, ht, hmap⟩ := this
      cases hrec : gwRecord hist gw t with
      | none => rw [hrec] at hmap; simp at hmap
      | some g =>
        rw [hrec] at hmap
        simp only [Option.map_some', Option.some_inj] at hmap
        exact ⟨t, ht, g, hrec, congrArg Prod.fst hmap.symm, congrArg Prod.snd hmap.symm⟩

/-- The teams of the worked example: A scored 10, B scored 7, C has no
record for the target gameweek 5. -/
def exampleTeams : List TeamRow :=
  [ { entry := 1, entry_name := "A", player_name := "a", total := 0, event_total := 0 },
    { entry := 2, entry_name := "B", player_name := "b", total := 0, event_total := 0 },
    { entry := 3, entry_name := "C", player_name := "c", total := 0, event_total := 0 } ]

/-- Histories for the worked example. -/
def exampleHist : Int → List HistRecord := fun j =>
  if j = 1 then [{ event := 5, points := some 10 }]
  else if j = 2 then [{ event := 5, points := some 7 }]
  else []

/-- C4 witness: on teams A=10, B=7 and C without a record for gameweek 5,
the amended theorem applies and the scan indeed returns B at 7 points. -/
theorem C4_bottom_of_week_min_witness :
    (∃ n p, bottom_of_week_scan exampleTeams exampleHist 5 = some (n, p)
      ∧ (n, p) ∈ bow_scores exampleTeams exampleHist 5
      ∧ (∃ t ∈ exampleTeams, ∃ g, gwRecord exampleHist 5 t = some g
            ∧ n = labelOf t ∧ p = g.points.getD 0)
      ∧ ∀ q ∈ bow_scores exampleTeams exampleHist 5, p ≤ q.2)
    ∧ bottom_of_week_scan exampleTeams exampleHist 5 = some ("B (b)", 7) := by
  exact ⟨C4_bottom_of_week_min exampleTeams exampleHist 5 (by decide), by decide⟩

/-- C5 counterexample: an entry whose record for the gameweek exists but
whose `points` field is absent is NOT skipped: `this_gw.get("points", 0)`
substitutes 0 and the entry wins the minimum with a zero score, so the
claim that an undeterminable score can never appear as zero is false. -/
theorem C5_counterexample :
    (gwRecord (fun _ => [{ event := 5, points := none }]) 5
        { entry := 9, entry_name := "Z", player_name := "z",
          total := 0, event_total := 0 }) =
      some { event := 5, points := none }
    ∧ bottom_of_week_scan
        [{ entry := 9, entry_name := "Z", player_name := "z",
           total := 0, event_total := 0 }]
        (fun _ => [{ event := 5, points := none }]) 5 = some ("Z (z)", 0) := by
  exact ⟨by decide, by decide⟩

/-- C5 amended: entries with no history record for the target gameweek are
skipped and can never supply the result; every returned result comes from a
team with a record for the gameweek, with score `points.getD 0` — so a
record that exists but lacks the points field is given the substituted
score 0 rather than being skipped. -/
theorem C5_skip_only_missing_records (teams : List TeamRow)
    (hist : Int → List HistRecord) (gw : Int) (n : String) (p : Int)
    (h : bottom_of_week_scan teams hist gw = some (n, p)) :
    ∃ t ∈ teams, ∃ g, gwRecord hist gw t = some g
      ∧ n = labelOf t ∧ p = g.points.getD 0 := by
  have hfold := foldl_bow_step_eq hist gw teams (none, 10 ^ 9)
  obtain ⟨_, _, h3⟩ := fold_min_spec (bow_scores teams hist gw) (none, 10 ^ 9)
  unfold bottom_of_week_scan at h
  rw [hfold] at h
  rcases h3 with heq | ⟨n', hn1, hn2, _⟩
  · rw [heq] at h
    simp [bow_finish] at h
  · rw [bow_finish_some _ n' hn1] at h
    simp only [Option.some_inj, Prod.mk.injEq] at h
    obtain ⟨rfl, rfl⟩ := h
    obtain ⟨t, ht, hmap⟩ := List.mem_filterMap.mp hn2
    cases hrec : gwRecord hist gw t with
    | none => rw [hrec] at hmap; simp at hmap
    | some g =>
      rw [hrec] at hmap
      simp only [Option.map_some', Option.some_inj] at hmap
      exact ⟨t, ht, g, hrec, congrArg Prod.fst hmap.symm, congrArg Prod.snd hmap.symm⟩

/-- C5 witness: the amended theorem applied to the worked example, where
the result B at 7 indeed comes from team B's record for gameweek 5. -/
theorem C5_skip_only_missing_records_witness :
    ∃ t ∈ exampleTeams, ∃ g, gwRecord exampleHist 5 t = some g
      ∧ "B (b)" = labelOf t ∧ (7 : Int) = g.points.getD 0 := by
  exact C5_skip_only_missing_records exampleTeams exampleHist 5 "B (b)" 7 (by decide)

/-- C9: the `10 ^ 9` sentinel is never returned: if every team that has a
record for the target gameweek has at least `10 ^ 9` points the scan fails
(`RuntimeError`, modelled `none`), and every score the scan does return is
strictly below `10 ^ 9`. -/
theorem C9_sentinel_never_returned (teams : List TeamRow)
    (hist : Int → List HistRecord) (gw : Int) :
    ((∀ q ∈ bow_scores teams hist gw, 10 ^ 9 ≤ q.2) →
        bottom_of_week_scan teams hist gw = none)
    ∧ (∀ n p, bottom_of_week_scan teams hist gw = some (n, p) → p < 10 ^ 9) := by
  have hfold := foldl_bow_step_eq hist gw teams (none, 10 ^ 9)
  obtain ⟨h1, h2, h3⟩ := fold_min_spec (bow_scores teams hist gw) (none, 10 ^ 9)
  constructor
  · intro hall
    unfold bottom_of_week_scan
    rw [hfold]
    rcases h3 with heq | ⟨n', hn1, hn2, hn3⟩
    · rw [heq]
      exact bow_finish_none _ rfl
    · exfalso
      have := hall _ hn2
      simp only at hn3
      omega
  · intro n p h
    unfold bottom_of_week_scan at h
    rw [hfold] at h
    rcases h3 with heq | ⟨n', hn1, hn2, hn3⟩
    · rw [heq] at h
      simp [bow_finish] at h
    · rw [bow_finish_some _ n' hn1] at h
      simp only [Option.some_inj, Prod.mk.injEq] at h
      obtain ⟨rfl, rfl⟩ := h
      simpa using hn3

/-- C9 witness: with the single team whose only record carries exactly
`10 ^ 9` points the scan fails, and the returned score of the worked
example is below the sentinel. -/
theorem C9_sentinel_never_returned_witness :
    bottom_of_week_scan
      [{ entry := 1, entry_name := "A", player_name := "a",
         total := 0, event_total := 0 }]
      (fun j => if j = 1 then [{ event := 6, points := some (10 ^ 9) }] else [])
      6 = none
    ∧ (7 : Int) < 10 ^ 9 := by
  refine ⟨(C9_sentinel_never_returned _ _ 6).1 (by decide), ?_⟩
  exact (C9_sentinel_never_returned exampleTeams exampleHist 5).2 "B (b)" 7 (by decide)

/-! ## Gameweeks and phase resolution -/

/-- A bootstrap event (gameweek) as the script reads it: `e["id"]` (plain
indexing), `e.get("finished")` (absent behaves as false), and
`e.get("phase", 1)` (absent defaults to 1, hence an `Option`). -/
structure Event where
  id : Int
  finished : Bool
  phase : Option Int
deriving DecidableEq, Repr

/-- `last_finished_gw`: `max(e["id"] for e in finished)` over the finished
events, `none` modelling the `RuntimeError("No finished gameweeks yet")`. -/
def last_finished_gw (events : List Event) : Option Int :=
  match (events.filter (fun e => e.finished)).map (fun e => e.id) with
  | [] => none
  | i :: is => some (is.foldl max i)

/-- `current_phase_from_date`: look up the event whose id is the latest
finished gameweek and return its phase field (default 1).  The `now_utc`
argument is taken, and ignored, exactly as in the source. -/
def current_phase_from_date (events : List Event) (now_utc : Int) : Option Int :=
  match last_finished_gw events with
  | none => none
  | some gw =>
    match events.find? (fun e => e.id == gw) with
    | none => none
    | some e => some (e.phase.getD 1)

lemma foldl_max_mem (is : List Int) :
    ∀ i : Int, is.foldl max i = i ∨ is.foldl max i ∈ is := by
  induction is with
  | nil => intro i; exact Or.inl rfl
  | cons j js ih =>
    intro i
    rcases ih (max i j) with h | h
    · rcases max_choice i j with hm | hm
      · refine Or.inl ?_
        simp only [List.foldl_cons]
        rw [h, hm]
      · refine Or.inr ?_
        simp only [List.foldl_cons]
        rw [h, hm]
        exact List.mem_cons_self j js
    · refine Or.inr ?_
      simp only [List.foldl_cons]
      exact List.mem_cons_of_mem j h

lemma foldl_max_le (is : List Int) :
    ∀ i : Int, i ≤ is.foldl max i ∧ ∀ j ∈ is, j ≤ is.foldl max i := by
  induction is with
  | nil => intro i; exact ⟨le_refl i, by simp⟩
  | cons j js ih =>
    intro i
    obtain ⟨h1, h2⟩ := ih (max i j)
    refine ⟨le_trans (le_max_left i j) h1, ?_⟩
    intro k hk
    rcases List.mem_cons.mp hk with rfl | hk2
    · exact le_trans (le_max_right i k) h1
    · exact h2 k hk2

lemma last_finished_gw_exists (events : List Event)
    (h : ∃ e ∈ events, e.finished = true) :
    ∃ gw, last_finished_gw events = some gw := by
  obtain ⟨e, he, hf⟩ := h
  have hmem : e.id ∈ (events.filter (fun e => e.finished)).map (fun e => e.id) :=
    List.mem_map.mpr ⟨e, List.mem_filter.mpr ⟨he, hf⟩, rfl⟩
  unfold last_finished_gw
  cases hfl : (events.filter (fun e => e.finished)).map (fun e => e.id) with
  | nil => rw [hfl] at hmem; simp at hmem
  | cons i is => exact ⟨is.foldl max i, rfl⟩

lemma last_finished_gw_spec (events : List Event) (gw : Int)
    (h : last_finished_gw events = some gw) :
    (∃ e ∈ events, e.finished = true ∧ e.id = gw)
    ∧ ∀ e ∈ events, e.finished = true → e.id ≤ gw := by
  unfold last_finished_gw at h
  cases hfl : (events.filter (fun e => e.finished)).map (fun e => e.id) with
  | nil => rw [hfl] at h; simp at h
  | cons i is =>
    rw [hfl] at h
    simp only [Option.some_inj] at h
    constructor
    · have hmem : gw ∈ i :: is := by
        rcases foldl_max_mem is i with hm | hm
        · rw [← h, hm]; exact List.mem_cons_self i is
        · rw [← h]; exact List.mem_cons_of_mem i hm
      rw [← hfl] at hmem
      obtain ⟨e, hef, hei⟩ := List.mem_map.mp hmem
      obtain ⟨hee, hfin⟩ := List.mem_filter.mp hef
      exact ⟨e, hee, hfin, hei⟩
    · intro e hee hfin
      have hmem : e.id ∈ i :: is := by
        rw [← hfl]
        exact List.mem_map.mpr ⟨e, List.mem_filter.mpr ⟨hee, hfin⟩, rfl⟩
      obtain ⟨h1, h2⟩ := foldl_max_le is i
      rcases List.mem_cons.mp hmem with heq | hmem2
      · rw [heq, ← h]; exact h1
      · rw [← h]; exact h2 e.id hmem2

/-- C6: for any events list with at least one finished gameweek and ANY two
values of the `now_utc` argument, `current_phase_from_date` gives the same
result (no calendar arithmetic whatsoever), and that result is the phase
field (default 1) of an event whose id equals the highest id among finished
gameweeks. -/
theorem C6_phase_is_latest_finished_lookup (events : List Event)
    (now₁ now₂ : Int) (h : ∃ e ∈ events, e.finished = true) :
    current_phase_from_date events now₁ = current_phase_from_date events now₂
    ∧ ∃ gw e, last_finished_gw events = some gw
        ∧ e ∈ events ∧ e.id = gw
        ∧ (∃ f ∈ events, f.finished = true ∧ f.id = gw)
        ∧ (∀ f ∈ events, f.finished = true → f.id ≤ gw)
        ∧ current_phase_from_date events now₁ = some (e.phase.getD 1) := by
  refine ⟨rfl, ?_⟩
  obtain ⟨gw, hgw⟩ := last_finished_gw_exists events h
  obtain ⟨⟨e₀, he₀, hf₀, hid₀⟩, hmax⟩ := last_finished_gw_spec events gw hgw
  cases hfind : events.find? (fun e => e.id == gw) with
  | none =>
    exfalso
    have := List.find?_eq_none.mp hfind e₀ he₀
    simp [hid₀] at this
  | some e =>
    refine ⟨gw, e, hgw, List.mem_of_find?_eq_some hfind, ?_, ⟨e₀, he₀, hf₀, hid₀⟩, hmax, ?_⟩
    · have := List.find?_some hfind
      simpa using this
    · simp only [current_phase_from_date, hgw, hfind]

/-- Concrete bootstrap events: gameweek 1 finished in phase 2, gameweek 2
not finished yet. -/
def exampleEvents : List Event :=
  [ { id := 1, finished := true, phase := some 2 },
    { id := 2, finished := false, phase := some 3 } ]

/-- C6 witness: on the concrete events the phase lookup ignores the `now`
argument (timestamps 0 and 999999 agree) and returns the finished
gameweek's phase 2. -/
theorem C6_phase_is_latest_finished_lookup_witness :
    current_phase_from_date exampleEvents 0 = current_phase_from_date exampleEvents 999999
    ∧ current_phase_from_date exampleEvents 0 = some 2 := by
  exact ⟨(C6_phase_is_latest_finished_lookup exampleEvents 0 999999 (by decide)).1,
    by decide⟩

/-! ## Webhook posting (`post_to_slack`) -/

/-- A webhook HTTP response: status code and body text. -/
structure HttpResp where
  status : Nat
  body : String
deriving DecidableEq, Repr

/-- `requests.Response.raise_for_status()`: raises `HTTPError` (carrying
the status and body) exactly for client errors (4xx) and server errors
(5xx), i.e. for `400 <= status < 600`. -/
def raise_for_status (r : HttpResp) : Except (Nat × String) Unit :=
  if 400 ≤ r.status ∧ r.status < 600 then Except.error (r.status, r.body)
  else Except.ok ()

/-- `post_to_slack`: after POSTing, `if r.status_code >= 300:` log the
status and body and call `r.raise_for_status()`; otherwise return. -/
def post_to_slack (r : HttpResp) : Except (Nat × String) Unit :=
  if 300 ≤ r.status then raise_for_status r else Except.ok ()

/-- C8 counterexample: a 304 response is not a 2xx status, yet
`post_to_slack` returns successfully: the guard `status_code >= 300` hands
it to `raise_for_status`, which only raises for 4xx/5xx.  The claim that
the function fails on every non-2xx response is false. -/
theorem C8_counterexample :
    post_to_slack { status := 304, body := "" } = Except.ok ()
    ∧ ¬ (200 ≤ 304 ∧ (304 : Nat) < 300) := by
  exact ⟨rfl, by decide⟩

/-- C8 amended: `post_to_slack` fails, with the error carrying the response
status and body, exactly when the status is a 4xx or 5xx
(`400 ≤ status < 600`); every other status — including non-2xx statuses
like 1xx and 3xx — returns successfully (3xx after logging). -/
theorem C8_post_status_behaviour (r : HttpResp) :
    (post_to_slack r = Except.ok () ↔ (r.status < 400 ∨ 600 ≤ r.status))
    ∧ (post_to_slack r = Except.error (r.status, r.body) ↔
        (400 ≤ r.status ∧ r.status < 600)) := by
  unfold post_to_slack raise_for_status
  by_cases h1 : 300 ≤ r.status <;> by_cases h2 : 400 ≤ r.status ∧ r.status < 600 <;>
    simp [h1, h2] <;> omega

/-! ## Entry point error handling -/

/-- Observable outcome of one run of the `__main__` block: the process
exit code (`0` for a normal return, `1` for `sys.exit(1)`), the error
logged by `logging.exception`, and the texts of the failure POSTs sent to
the webhook from the handler. -/
structure RunReport where
  exitCode : Nat
  logged : Option String
  failure_posts : List String
deriving DecidableEq, Repr

/-- The failure text `f"FPL bot failed: {e}"`. -/
def failText (e : String) : String := "FPL bot failed: " ++ e

/-- The `__main__` block: run `main()`; on success exit normally; on any
exception log it, attempt one `post_to_slack` of the failure text inside a
`try/except: pass` (its outcome is discarded either way), then
`sys.exit(1)`.  `mainResult` abstracts the outcome of `main()` and
`failResp` the webhook response to the failure POST. -/
def entry_handler (mainResult : Except String Unit) (failResp : HttpResp) :
    RunReport :=
  match mainResult with
  | Except.ok _ => { exitCode := 0, logged := none, failure_posts := [] }
  | Except.error e =>
    match post_to_slack failResp with
    | Except.ok _ =>
        { exitCode := 1, logged := some e, failure_posts := [failText e] }
    | Except.error _ =>
        { exitCode := 1, logged := some e, failure_posts := [failText e] }

/-- C7: whenever an exception escapes `main()`, the entry point logs that
error, makes exactly one failure-notification attempt, and exits with code
1 — and the whole report is independent of how the failure POST turns out,
so a failing failure-report is swallowed and never masks the primary
error. -/
theorem C7_entry_point_failure_policy (e : String) (resp resp' : HttpResp) :
    entry_handler (Except.error e) resp =
      { exitCode := 1, logged := some e, failure_posts := [failText e] }
    ∧ entry_handler (Except.error e) resp = entry_handler (Except.error e) resp'
    ∧ (entry_handler (Except.error e) resp).exitCode = 1
    ∧ (entry_handler (Except.error e) resp).failure_posts.length = 1
    ∧ entry_handler (Except.ok ()) resp =
        { exitCode := 0, logged := none, failure_posts := [] } := by
  unfold entry_handler
  cases post_to_slack resp <;> cases post_to_slack resp' <;> simp

/-! ## Startup configuration -/

/-- The environment variables the module-level code reads. -/
structure Env where
  fpl_league_id : Option String
  slack_webhook_url : Option String
  slack_channel : Option String
  team_limit : Option String

/-- How module initialisation can end: an unhandled `ValueError` from
`int(...)` (the interpreter aborts with a traceback: no config check, no
network call, no notification, and neither `sys.exit(2)` nor a normal
run), the `sys.exit(2)` missing-configuration path, or a ready
configuration with the parsed team limit, from which `main()` would run. -/
inductive StartupResult where
  | valueError
  | missingConfigExit
  | ready (team_limit : Int)
deriving DecidableEq, Repr

/-- Leading and trailing whitespace removal on a character list (the
whitespace stripping `int()` applies to its string argument). -/
def stripWs (cs : List Char) : List Char :=
  ((cs.dropWhile (fun c => c.isWhitespace)).reverse.dropWhile
    (fun c => c.isWhitespace)).reverse

/-- Value of a non-empty digit string. -/
def digitsVal (cs : List Char) : Nat :=
  cs.foldl (fun n c => 10 * n + (c.toNat - 48)) 0

/-- Parse a non-empty all-digit character list. -/
def pyIntDigits (cs : List Char) : Option Nat :=
  if cs ≠ [] ∧ cs.all (fun c => c.isDigit) then some (digitsVal cs) else none

/-- Python's `int(str)` for decimal strings: strip surrounding whitespace,
allow one optional sign, then require a non-empty run of digits; anything
else raises `ValueError` (`none`).  (Digit-group underscores, which `int`
also accepts, are not modelled; that only makes the parser stricter and
none of the claims depend on them.) -/
def pyInt (s : String) : Option Int :=
  match stripWs s.toList with
  | '+' :: cs => (pyIntDigits cs).map (fun n => (n : Int))
  | '-' :: cs => (pyIntDigits cs).map (fun n => -(n : Int))
  | cs => (pyIntDigits cs).map (fun n => (n : Int))

/-- Python truthiness of an optional env string: `not s` is true for an
unset variable and for the empty string. -/
def falsyStr : Option String → Bool
  | none => true
  | some s => s == ""

/-- The module-level startup sequence, in source order: the `os.getenv`
reads, then `TEAM_LIMIT = int(os.getenv("TEAM_LIMIT", "50"))` — whose
`ValueError` is unhandled and aborts the interpreter — and only then the
`if not LEAGUE_ID or not SLACK_WEBHOOK_URL: sys.exit(2)` check. -/
def startup (env : Env) : StartupResult :=
  match pyInt (env.team_limit.getD "50") with
  | none => StartupResult.valueError
  | some n =>
    if falsyStr env.fpl_league_id || falsyStr env.slack_webhook_url then
      StartupResult.missingConfigExit
    else StartupResult.ready n

/-- C10: a `TEAM_LIMIT` string that does not parse as an integer crashes
module initialisation with an unhandled `ValueError` before the
required-configuration check runs, so the process neither takes the
`sys.exit(2)` path nor reaches a ready configuration (hence it makes no
network calls, sends no failure notification, and exits with neither code
2 nor code 0). -/
theorem C10_team_limit_parse_crash (env : Env)
    (h : pyInt (env.team_limit.getD "50") = none) :
    startup env = StartupResult.valueError
    ∧ startup env ≠ StartupResult.missingConfigExit
    ∧ ∀ n, startup env ≠ StartupResult.ready n := by
  unfold startup
  rw [h]
  exact ⟨rfl, by simp, fun n => by simp⟩

/-- An environment whose `TEAM_LIMIT` is not an integer and whose required
configuration is also missing: the parse error still wins. -/
def badEnv : Env :=
  { fpl_league_id := none, slack_webhook_url := none,
    slack_channel := none, team_limit := some "abc" }

/-- C10 witness: with `TEAM_LIMIT="abc"` (and even with the required
configuration missing) startup ends in the unhandled `ValueError`, not in
the `sys.exit(2)` configuration check. -/
theorem C10_team_limit_parse_crash_witness :
    startup badEnv = StartupResult.valueError := by
  exact (C10_team_limit_parse_crash badEnv (by decide)).1

end FplBot
